import Mathlib

/-!
Verification of the edit/cursor context tracker and backend context assembler
of the shiny-textedit application.

Client side (srcts/components/code-editor.tsx, the variant maintaining
`recentEdits`): the `handleUpdate` callback normalizes document changes into
`EditInfo` records, maintains a bounded time-windowed edit history buffer,
extracts a prefix/suffix window around the cursor, and debounces delivery of a
`CursorContext` to the registered `onCursorChange` callback via a single-slot
timer.

Backend side (r/app.R and the simpler server variants): `cursor_info` assembles
a received `CursorContext` into a deterministic textual block.

Documents are modelled as `List Char`; `doc.sliceString(a, b)` of CodeMirror is
half-open slicing.  Timestamps are `Int` (milliseconds).  The document-prefix
field of the wire payload (called `prefix` in the source) is rendered here as
`prefixText`.
-/

namespace TextEdit

/-- One document mutation, as recorded by `handleUpdate`
(interface `EditInfo` in code-editor.tsx). -/
structure EditInfo where
  timestamp : Int
  «from» : Nat
  «to» : Nat
  insert : String
  remove : String
  deriving DecidableEq, Repr

/-- One active selection/cursor, the wire shape consumed by the R assembler
(`selections` entries of the `cursor_context` input). -/
structure SelectionInfo where
  «from» : Nat
  «to» : Nat
  fromLine : Nat
  fromColumn : Nat
  toLine : Nat
  toColumn : Nat
  text : String
  deriving DecidableEq, Repr

/-- The emitted snapshot (interface `CursorContext`), in its wire shape as read
by the R server (`input$cursor_context`). -/
structure CursorContext where
  line : Nat
  column : Nat
  prefixText : String
  suffix : String
  language : String
  selections : List SelectionInfo
  recentEdits : List EditInfo
  deriving DecidableEq, Repr

/-- CodeMirror `doc.sliceString(a, b)`: the half-open slice `[a, b)` of the
document text. -/
def sliceString (doc : List Char) (a b : Nat) : String :=
  String.mk ((doc.take b).drop a)

/-- CodeMirror `state.doc.lineAt(pos).number`: 1-based line number of the line
containing `pos`; a position sitting right after a newline belongs to the next
line. -/
def lineNumberAt (doc : List Char) (pos : Nat) : Nat :=
  1 + (doc.take pos).count '\n'

/-- CodeMirror `state.doc.lineAt(pos).from`: offset of the start of the line
containing `pos` (one past the last newline strictly before `pos`). -/
def lineStartAt (doc : List Char) (pos : Nat) : Nat :=
  match pos with
  | 0 => 0
  | p + 1 => if doc.get? p = some '\n' then p + 1 else lineStartAt doc p

/-- The column `cursorPos - line.from` computed in `handleUpdate`. -/
def columnAt (doc : List Char) (pos : Nat) : Nat :=
  pos - lineStartAt doc pos

/-- Source: `prefixStart = Math.max(0, cursorPos - 1000)`; `Nat` subtraction
already truncates at zero. -/
def prefixStart (cursorPos : Nat) : Nat :=
  cursorPos - 1000

/-- The prefix window `state.doc.sliceString(prefixStart, cursorPos)`. -/
def extractPrefixText (doc : List Char) (cursorPos : Nat) : String :=
  sliceString doc (prefixStart cursorPos) cursorPos

/-- Source: `suffixEnd = Math.min(state.doc.length, cursorPos + 200)`. -/
def suffixEnd (doc : List Char) (cursorPos : Nat) : Nat :=
  min doc.length (cursorPos + 200)

/-- The suffix window `state.doc.sliceString(cursorPos, suffixEnd)`. -/
def extractSuffix (doc : List Char) (cursorPos : Nat) : String :=
  sliceString doc cursorPos (suffixEnd doc cursorPos)

/-- One changed sub-range as reported by
`update.changes.iterChanges((fromA, toA, fromB, toB, inserted) => ...)`;
`fromB`/`toB` are not read by `handleUpdate`. -/
structure ChangeRange where
  fromA : Nat
  toA : Nat
  inserted : String
  deriving DecidableEq, Repr

/-- The EditEvent Normalizer: the `iterChanges` body of `handleUpdate` builds
one `EditInfo` per changed sub-range, all sharing the one `timestamp`, with
`remove` sliced from `update.startState.doc` (the pre-change document). -/
def normalizeChanges (startDoc : List Char) (changes : List ChangeRange)
    (timestamp : Int) : List EditInfo :=
  changes.map fun ch =>
    { timestamp := timestamp
      «from» := ch.fromA
      «to» := ch.toA
      insert := ch.inserted
      remove := sliceString startDoc ch.fromA ch.toA }

/-- The Edit History Buffer mutation in `handleUpdate`: push the normalized
edits, then `slice(-20)` when over 20 entries (hard cap), then drop entries
with `timestamp <= cutoffTime` where `cutoffTime = timestamp - 30000`
(age cap); the hard cap runs before the age cap, exactly as in the source. -/
def recordEdits (recentEdits newEdits : List EditInfo) (timestamp : Int) :
    List EditInfo :=
  let pushed := recentEdits ++ newEdits
  let capped := if pushed.length > 20 then pushed.drop (pushed.length - 20) else pushed
  capped.filter fun e => decide (timestamp - 30000 < e.timestamp)

/-! ## The backend Context Assembler

Three server variants build the `cursor_info` output.  The richest (r/app.R)
renders a FIM block with `<|fim_prefix|>` / `<|fim_suffix|>` / `<|fim_middle|>`
tokens, a SELECTED TEXT section and a RECENT EDITS section (last 5, newest
first).  The intermediate variant (first server of part_006) renders a
`Context:` block fenced by `==============` lines around a `-- [CURSOR] --`
marker, selections, and the last 3 edits in array order.  The simplest variant
(second server of part_006) renders only a summary with prefix/suffix lengths.
All three return the same waiting sentinel for a null context.

Each variant is modelled as the list of strings accumulated into `info_parts`,
joined with `"\n"` (R `paste(info_parts, collapse = "\n")`). -/

/-- R: `paste(parts, collapse = "\n")`. -/
def joinLines (parts : List String) : String :=
  String.intercalate "\n" parts

/-- R `substr(s, 1, n)`: the first `n` characters. -/
def substrTo (s : String) (n : Nat) : String :=
  String.mk (s.data.take n)

/-- The fixed sentinel all server variants return for a null
`input$cursor_context`. -/
def waitingSentinel : String := "Waiting for cursor context..."

/-- app.R: the fixed head of `info_parts` — position header then the FIM
fenced block. -/
def fimHeaderParts (ctx : CursorContext) : List String :=
  ["Language: " ++ ctx.language,
   "Line: " ++ toString ctx.line ++ ", Column: " ++ toString ctx.column,
   "",
   "<|fim_prefix|>",
   ctx.prefixText,
   "<|fim_suffix|>",
   ctx.suffix,
   "<|fim_middle|>"]

/-- app.R `has_text_selected`: some selection has `nchar(sel$text) > 0`. -/
def hasTextSelected (sels : List SelectionInfo) : Bool :=
  sels.any fun sel => sel.text.length > 0

/-- app.R: the two lines rendered for a non-empty selection at 1-based index
`i`: its line:column range header and its text. -/
def fimSelectionRender (i : Nat) (sel : SelectionInfo) : List String :=
  ["Selection " ++ toString i ++ " (Line " ++ toString sel.fromLine ++ ":" ++
     toString sel.fromColumn ++ " → " ++ toString sel.toLine ++ ":" ++
     toString sel.toColumn ++ "):",
   sel.text]

/-- app.R: the lines appended for the `i`-th selection (1-based `seq_along`
index); selections with empty text are skipped. -/
def fimSelectionEntry (i : Nat) (sel : SelectionInfo) : List String :=
  if sel.text.length > 0 then fimSelectionRender i sel else []

/-- app.R: the SELECTED TEXT section, emitted only when some selection has
non-empty text. -/
def fimSelectionParts (sels : List SelectionInfo) : List String :=
  if hasTextSelected sels then
    ["", "---", "SELECTED TEXT:"] ++
      sels.enum.flatMap fun p => fimSelectionEntry (p.1 + 1) p.2
  else []

/-- app.R: one formatted line for the `i`-th shown edit — replacement when both
`remove` and `insert` are non-empty, else insertion, else deletion (and nothing
for a no-op record). -/
def fimEditLines (i : Nat) (e : EditInfo) : List String :=
  if e.remove.length > 0 && e.insert.length > 0 then
    ["- Edit " ++ toString i ++ " (pos " ++ toString e.«from» ++ "-" ++
       toString e.«to» ++ "): \"" ++ e.remove ++ "\" → \"" ++ e.insert ++ "\""]
  else if e.insert.length > 0 then
    ["- Edit " ++ toString i ++ " (pos " ++ toString e.«from» ++ "): inserted \"" ++
       e.insert ++ "\""]
  else if e.remove.length > 0 then
    ["- Edit " ++ toString i ++ " (pos " ++ toString e.«from» ++ "-" ++
       toString e.«to» ++ "): deleted \"" ++ e.remove ++ "\""]
  else []

/-- app.R: the edits shown in the RECENT EDITS section; the loop reads
`recentEdits[[length - i + 1]]` for `i = 1 .. min(5, length)`, i.e. the last
five entries newest-first. -/
def fimEditsShown (edits : List EditInfo) : List EditInfo :=
  edits.reverse.take 5

/-- app.R: the RECENT EDITS section, emitted only when `recentEdits` is
non-empty. -/
def fimEditParts (edits : List EditInfo) : List String :=
  if edits.length > 0 then
    ["", "---", "RECENT EDITS:"] ++
      (fimEditsShown edits).enum.flatMap fun p => fimEditLines (p.1 + 1) p.2
  else []

/-- The `cursor_info` render of r/app.R (FIM variant). -/
def cursorInfoFim : Option CursorContext → String
  | none => waitingSentinel
  | some ctx =>
      joinLines (fimHeaderParts ctx ++ fimSelectionParts ctx.selections ++
        fimEditParts ctx.recentEdits)

/-- part_006 first server: the lines appended for the `i`-th selection. -/
def v2SelectionEntry (i : Nat) (sel : SelectionInfo) : List String :=
  if sel.text.length > 0 then
    ["  Selection " ++ toString i ++ ":",
     "    Range: Line " ++ toString sel.fromLine ++ ":" ++ toString sel.fromColumn ++
       " → Line " ++ toString sel.toLine ++ ":" ++ toString sel.toColumn,
     "    Positions: " ++ toString sel.«from» ++ "-" ++ toString sel.«to»,
     "    Text: \"" ++ substrTo sel.text 100 ++ "\""]
  else
    ["  Selection " ++ toString i ++ ": (cursor only at Line " ++
       toString sel.fromLine ++ ":" ++ toString sel.fromColumn ++ ")"]

/-- part_006 first server: the selection section, emitted whenever the
`selections` list is non-empty (even if every selection is a bare cursor). -/
def v2SelectionParts (sels : List SelectionInfo) : List String :=
  if sels.length > 0 then
    ["", "Current Selection(s):", "  Total selections: " ++ toString sels.length] ++
      sels.enum.flatMap fun p => v2SelectionEntry (p.1 + 1) p.2
  else []

/-- part_006 first server: the edits shown; the loop reads
`recentEdits[[length - num_to_show + i]]` for `i = 1 .. min(3, length)`, i.e.
the last three entries in array (oldest-first) order. -/
def v2EditsShown (edits : List EditInfo) : List EditInfo :=
  edits.drop (edits.length - 3)

/-- part_006 first server: the lines appended for the `i`-th shown edit. -/
def v2EditLines (i : Nat) (e : EditInfo) : List String :=
  ["  Edit " ++ toString i ++ ": pos " ++ toString e.«from» ++ "-" ++ toString e.«to»] ++
    (if e.remove.length > 0 then
      ["    Removed: \"" ++ substrTo e.remove 50 ++ "\""]
    else []) ++
    (if e.insert.length > 0 then
      ["    Inserted: \"" ++ substrTo e.insert 50 ++ "\""]
    else [])

/-- part_006 first server: the Recent Edits section, emitted only when
`recentEdits` is non-empty. -/
def v2EditParts (edits : List EditInfo) : List String :=
  if edits.length > 0 then
    ["", "Recent Edits:", "  Total edits tracked: " ++ toString edits.length] ++
      (v2EditsShown edits).enum.flatMap fun p => v2EditLines (p.1 + 1) p.2
  else []

/-- part_006 first server: the fenced context block around the cursor. -/
def v2ContextParts (ctx : CursorContext) : List String :=
  ["", "Context:", "==============", ctx.prefixText, "-- [CURSOR] --", ctx.suffix,
   "=============="]

/-- The `cursor_info` render of the first server in part_006. -/
def cursorInfoV2 : Option CursorContext → String
  | none => waitingSentinel
  | some ctx =>
      joinLines
        (["Cursor Position:",
          "  Line: " ++ toString ctx.line,
          "  Column: " ++ toString ctx.column,
          "  Language: " ++ ctx.language] ++
         v2SelectionParts ctx.selections ++
         v2ContextParts ctx ++
         v2EditParts ctx.recentEdits)

/-- The `cursor_info` render of the second server in part_006 (summary
variant). -/
def cursorInfoSummary : Option CursorContext → String
  | none => waitingSentinel
  | some ctx =>
      "Cursor Position:\n  Line: " ++ toString ctx.line ++
        "\n  Column: " ++ toString ctx.column ++
        "\n  Language: " ++ ctx.language ++
        "\n\nContext Summary:\n  Prefix length: " ++ toString ctx.prefixText.length ++
        " chars\n  Suffix length: " ++ toString ctx.suffix.length ++
        " chars\n\nReady for LLM integration!\n" ++
        "This context can be sent to an LLM API for code completion."

/-- A concrete context used to separate the assembler variants. -/
def ctxTiny : CursorContext :=
  { line := 1, column := 1, prefixText := "p", suffix := "s", language := "r",
    selections := [], recentEdits := [] }

/-- An older pure insertion, used to exercise the edit listings. -/
def editOlder : EditInfo := ⟨1000, 0, 0, "a", ""⟩

/-- A newer pure insertion, recorded after `editOlder`. -/
def editNewer : EditInfo := ⟨2000, 1, 1, "b", ""⟩

/-- The data-model invariant on one recorded edit: a valid range and a
non-no-op payload. -/
def editWellFormed (e : EditInfo) : Prop :=
  e.«from» ≤ e.«to» ∧ (e.remove ≠ "" ∨ e.insert ≠ "")

/-- Host editing-surface guarantees for one reported change range: ordered
offsets inside the pre-change document, and not a no-op (a zero-length range
with empty inserted text is never reported as a change). -/
def changeWellFormed (startDoc : List Char) (ch : ChangeRange) : Prop :=
  ch.fromA ≤ ch.toA ∧ ch.toA ≤ startDoc.length ∧
    (ch.fromA < ch.toA ∨ ch.inserted ≠ "")

/-! ## The Debounced Emitter

`handleUpdate` is modelled as a transition on the component's mutable state
(`recentEditsRef`, `debounceTimerRef`).  `window.setTimeout` returns a fresh
timer id; `clearTimeout` of the previous id plus `setTimeout` of a new one is
modelled by overwriting the single pending slot with the fresh id, so a cleared
timer's fire is a no-op.  The closure passed to `setTimeout` captures
`lineNumber`/`column` and the prefix/suffix windows at scheduling time and
reads `recentEditsRef.current` when it fires, exactly as in the source.  The
single-threaded event loop is a list of events (update notifications and timer
fires) processed in order; "notifications arriving within less than the quiet
interval of each other" means no timer fire occurs between them. -/

/-- The fields a raw `ViewUpdate` contributes: the two change flags, the
pre-change document with its changed ranges, and the post-update document and
primary cursor head. -/
structure UpdateNotif where
  docChanged : Bool
  selectionSet : Bool
  startDoc : List Char
  changes : List ChangeRange
  doc : List Char
  cursorPos : Nat
  deriving DecidableEq, Repr

/-- The values captured by the `setTimeout` closure at scheduling time. -/
structure PendingEmission where
  line : Nat
  column : Nat
  prefixText : String
  suffix : String
  language : String
  deriving DecidableEq, Repr

/-- The context the timer callback delivers to `onCursorChange`
(the `CursorContext` interface of the code-editor variant that tracks
`recentEdits`). -/
structure EmittedContext where
  line : Nat
  column : Nat
  prefixText : String
  suffix : String
  language : String
  recentEdits : List EditInfo
  deriving DecidableEq, Repr

/-- The component's mutable state: `recentEditsRef.current`,
a fresh-id supply for `window.setTimeout`, and `debounceTimerRef.current`
paired with its scheduled closure. -/
structure EditorState where
  recentEdits : List EditInfo
  nextTimerId : Nat
  pending : Option (Nat × PendingEmission)
  deriving DecidableEq, Repr

/-- The snapshot captured at notification time: line/column from
`state.doc.lineAt(cursorPos)` and the extracted prefix/suffix window. -/
def mkPending (language : String) (u : UpdateNotif) : PendingEmission :=
  { line := lineNumberAt u.doc u.cursorPos
    column := columnAt u.doc u.cursorPos
    prefixText := extractPrefixText u.doc u.cursorPos
    suffix := extractSuffix u.doc u.cursorPos
    language := language }

/-- One `handleUpdate` invocation: return immediately when no `onCursorChange`
callback is registered; otherwise record normalized edits on `docChanged`, and
on `selectionSet || docChanged` clear any pending timer and schedule a fresh
emission. -/
def handleUpdate (hasCallback : Bool) (language : String) (st : EditorState)
    (u : UpdateNotif) (now : Int) : EditorState :=
  if !hasCallback then st
  else
    let st1 :=
      if u.docChanged then
        { st with recentEdits :=
            recordEdits st.recentEdits (normalizeChanges u.startDoc u.changes now) now }
      else st
    if u.selectionSet || u.docChanged then
      { st1 with
          pending := some (st1.nextTimerId, mkPending language u)
          nextTimerId := st1.nextTimerId + 1 }
    else st1

/-- A timer with id `id` fires: it delivers only if it is still the pending
one (a cleared timer never reaches its callback); the delivered context reads
`recentEditsRef.current` at fire time. -/
def fireTimer (st : EditorState) (id : Nat) : EditorState × Option EmittedContext :=
  match st.pending with
  | some (id', p) =>
      if id' = id then
        ({ st with pending := none },
          some { line := p.line, column := p.column, prefixText := p.prefixText,
                 suffix := p.suffix, language := p.language,
                 recentEdits := st.recentEdits })
      else (st, none)
  | none => (st, none)

/-- An event of the single-threaded loop: an editor update notification or a
timer coming due. -/
inductive LoopEvent where
  | upd (u : UpdateNotif) (now : Int)
  | fire (id : Nat)
  deriving DecidableEq, Repr

/-- Process one loop event, returning the new state and the deliveries it
produced. -/
def stepEvent (hasCallback : Bool) (language : String) (st : EditorState) :
    LoopEvent → EditorState × List EmittedContext
  | .upd u now => (handleUpdate hasCallback language st u now, [])
  | .fire id =>
      let r := fireTimer st id
      (r.1, r.2.toList)

/-- Process a list of loop events in order, accumulating deliveries. -/
def runEvents (hasCallback : Bool) (language : String) (st : EditorState) :
    List LoopEvent → EditorState × List EmittedContext
  | [] => (st, [])
  | e :: evs =>
      let r := stepEvent hasCallback language st e
      let rest := runEvents hasCallback language r.1 evs
      (rest.1, r.2 ++ rest.2)

/-- The update events of a burst of notifications. -/
def notifEvents (us : List (UpdateNotif × Int)) : List LoopEvent :=
  us.map fun p => LoopEvent.upd p.1 p.2

/-- The context a burst's final delivery carries: position and window from the
notification `u`, recent edits from the buffer at delivery. -/
def emittedFrom (language : String) (u : UpdateNotif) (redits : List EditInfo) :
    EmittedContext :=
  { line := lineNumberAt u.doc u.cursorPos
    column := columnAt u.doc u.cursorPos
    prefixText := extractPrefixText u.doc u.cursorPos
    suffix := extractSuffix u.doc u.cursorPos
    language := language
    recentEdits := redits }

/-- A notification qualifies when it reports a selection or document change. -/
def qualifies (u : UpdateNotif) : Prop :=
  (u.selectionSet || u.docChanged) = true

instance (u : UpdateNotif) : Decidable (qualifies u) := by
  unfold qualifies
  infer_instance

/-- A concrete qualifying notification: typing `"Q"` over `"xyz"` in
`"abxyzfg"`, cursor ending at offset 3 of `"abQfg"`. -/
def notifA : UpdateNotif :=
  { docChanged := true, selectionSet := false, startDoc := "abxyzfg".toList,
    changes := [⟨2, 5, "Q"⟩], doc := "abQfg".toList, cursorPos := 3 }

/-- A concrete follow-up notification: a pure cursor move in `"abQfg"`. -/
def notifB : UpdateNotif :=
  { docChanged := false, selectionSet := true, startDoc := "abQfg".toList,
    changes := [], doc := "abQfg".toList, cursorPos := 1 }

/-! ## Theorems -/

/-- Character count of a document slice. -/
theorem sliceString_length (doc : List Char) (a b : Nat) :
    (sliceString doc a b).length = ((doc.take b).drop a).length := rfl

/-- A non-empty string has positive character count and conversely. -/
theorem string_length_pos_iff (s : String) : 0 < s.length ↔ s ≠ "" := by
  cases s with
  | mk data =>
    constructor
    · intro h hcon
      rw [hcon] at h
      exact Nat.lt_irrefl 0 h
    · intro h
      rcases Nat.eq_zero_or_pos (String.mk data).length with h0 | hpos
      · exfalso
        apply h
        have hd : data = [] := List.length_eq_zero.mp h0
        rw [hd]
      · exact hpos

/-- C1: after every record operation the buffer holds at most 20 entries and no
entry more than 30000 ms older than the triggering timestamp (the retained
entries are in fact strictly younger than `timestamp - 30000`); the hard cap is
applied before the age cap, as `recordEdits` is defined. -/
theorem recordEdits_bounded (buf newEdits : List EditInfo) (t : Int) :
    (recordEdits buf newEdits t).length ≤ 20 ∧
      ∀ e ∈ recordEdits buf newEdits t, t - 30000 < e.timestamp := by
  constructor
  · unfold recordEdits
    refine le_trans (List.length_filter_le _ _) ?_
    split
    · simp only [List.length_drop]
      omega
    · omega
  · intro e he
    unfold recordEdits at he
    have := List.of_mem_filter he
    exact of_decide_eq_true this

/-- Witness for C1 at a concrete buffer, edit batch and timestamp. -/
theorem recordEdits_bounded_witness :
    (recordEdits [] [⟨100000, 2, 5, "Q", "xyz"⟩] 100000).length ≤ 20 ∧
      (100000 : Int) - 30000 < (100000 : Int) :=
  ⟨(recordEdits_bounded [] [⟨100000, 2, 5, "Q", "xyz"⟩] 100000).1,
    by
      have h := (recordEdits_bounded [] [⟨100000, 2, 5, "Q", "xyz"⟩] 100000).2
        ⟨100000, 2, 5, "Q", "xyz"⟩ (by decide)
      exact h⟩

/-- C2: for every document and cursor offset `c ≤ length`, the extracted window
has prefix length `min 1000 c` and suffix length `min 200 (length - c)`
(half-open slices `[max(0,c-1000), c)` and `[c, min(length, c+200))`, no
padding); and on the concrete document `"ab\ncd"` with the cursor at offset 3
the snapshot has line 2, column 0 and prefix `"ab\n"`. -/
theorem extract_window_spec (doc : List Char) (c : Nat) (h : c ≤ doc.length) :
    (extractPrefixText doc c).length = min 1000 c ∧
      (extractSuffix doc c).length = min 200 (doc.length - c) ∧
      lineNumberAt "ab\ncd".toList 3 = 2 ∧
      columnAt "ab\ncd".toList 3 = 0 ∧
      extractPrefixText "ab\ncd".toList 3 = "ab\n" := by
  refine ⟨?_, ?_, by decide, by decide, by decide⟩
  · rw [extractPrefixText, sliceString_length]
    simp only [List.length_drop, List.length_take, prefixStart]
    omega
  · rw [extractSuffix, sliceString_length]
    simp only [List.length_drop, List.length_take, suffixEnd]
    omega

/-- Witness for C2 at the concrete document `"ab\ncd"`, cursor offset 3. -/
theorem extract_window_spec_witness :
    (extractPrefixText "ab\ncd".toList 3).length = min 1000 3 ∧
      (extractSuffix "ab\ncd".toList 3).length = min 200 ("ab\ncd".toList.length - 3) ∧
      lineNumberAt "ab\ncd".toList 3 = 2 ∧
      columnAt "ab\ncd".toList 3 = 0 ∧
      extractPrefixText "ab\ncd".toList 3 = "ab\n" :=
  extract_window_spec "ab\ncd".toList 3 (by decide)

/-- C6: every assembler variant maps an absent/null `CursorContext` to the
fixed waiting sentinel, verbatim, as an ordinary return value. -/
theorem assemble_null_sentinel :
    cursorInfoFim none = "Waiting for cursor context..." ∧
      cursorInfoV2 none = "Waiting for cursor context..." ∧
      cursorInfoSummary none = "Waiting for cursor context..." :=
  ⟨rfl, rfl, rfl⟩

set_option maxRecDepth 100000 in
/-- C5 counterexample: the claim asserts the same exact three delimiter tokens
in every assembler variant, but on the same context the app.R variant's output
contains `<|fim_prefix|>` while the part_006 variant's output does not (it
fences the context with `==============` and `-- [CURSOR] --` instead). -/
theorem fim_tokens_not_shared_by_variants :
    "<|fim_prefix|>".toList <:+: (cursorInfoFim (some ctxTiny)).toList ∧
      ¬ "<|fim_prefix|>".toList <:+: (cursorInfoV2 (some ctxTiny)).toList := by
  decide

/-- C5 amended: within each variant the delimiter tokens are fixed and
independent of the input — the app.R variant always emits exactly
`<|fim_prefix|>`, `<|fim_suffix|>`, `<|fim_middle|>` enclosing the context's
prefix and suffix in that order, and the part_006 variant always emits its own
(different) fence `==============` / `-- [CURSOR] --` / `==============` around
them — but the token set is not shared across variants. -/
theorem fim_tokens_fixed_per_variant (ctx : CursorContext) :
    (∃ rest : List String,
        cursorInfoFim (some ctx) =
          joinLines
            (["Language: " ++ ctx.language,
              "Line: " ++ toString ctx.line ++ ", Column: " ++ toString ctx.column,
              "",
              "<|fim_prefix|>", ctx.prefixText, "<|fim_suffix|>", ctx.suffix,
              "<|fim_middle|>"] ++ rest)) ∧
      (∃ head rest : List String,
        cursorInfoV2 (some ctx) =
          joinLines
            (head ++
              ["", "Context:", "==============", ctx.prefixText, "-- [CURSOR] --",
               ctx.suffix, "=============="] ++ rest)) := by
  constructor
  · exact ⟨fimSelectionParts ctx.selections ++ fimEditParts ctx.recentEdits, rfl⟩
  · refine ⟨["Cursor Position:", "  Line: " ++ toString ctx.line,
      "  Column: " ++ toString ctx.column, "  Language: " ++ ctx.language] ++
      v2SelectionParts ctx.selections, v2EditParts ctx.recentEdits, ?_⟩
    simp [cursorInfoV2, v2ContextParts, List.append_assoc]

/-- Skipping the empty-text selections while rendering is the same as rendering
the list filtered to its non-empty-text selections. -/
theorem flatMap_selectionEntry_eq_filter (l : List (Nat × SelectionInfo)) :
    (l.flatMap fun p => fimSelectionEntry (p.1 + 1) p.2) =
      (l.filter fun p => p.2.text.length > 0).flatMap
        fun p => fimSelectionRender (p.1 + 1) p.2 := by
  induction l with
  | nil => rfl
  | cons a l ih =>
    simp only [List.flatMap_cons, List.filter_cons]
    rw [ih]
    by_cases h : 0 < a.2.text.length
    · simp [fimSelectionEntry, h]
    · simp [fimSelectionEntry, h]

/-- C8: the FIM assembler omits a section entirely when its source data is
empty: with `recentEdits = []` the RECENT EDITS section contributes no lines at
all; with every selection's text empty the SELECTED TEXT section contributes no
lines; and when some selection has text, the section consists of the header
followed by exactly the renders (line:column range plus text) of the
non-empty-text selections, at their original 1-based indices. -/
theorem sections_omitted_when_empty (ctx : CursorContext) :
    (ctx.recentEdits = [] → fimEditParts ctx.recentEdits = []) ∧
      ((∀ sel ∈ ctx.selections, sel.text = "") →
        fimSelectionParts ctx.selections = []) ∧
      ((∃ sel ∈ ctx.selections, sel.text ≠ "") →
        fimSelectionParts ctx.selections =
          ["", "---", "SELECTED TEXT:"] ++
            (ctx.selections.enum.filter fun p => p.2.text.length > 0).flatMap
              fun p => fimSelectionRender (p.1 + 1) p.2) := by
  refine ⟨?_, ?_, ?_⟩
  · intro h
    rw [h]
    rfl
  · intro h
    rw [fimSelectionParts, if_neg]
    simp only [hasTextSelected, List.any_eq_true, not_exists, not_and]
    push_neg
    intro sel hsel
    rw [h sel hsel]
    simp
  · intro h
    rw [fimSelectionParts, if_pos, flatMap_selectionEntry_eq_filter]
    obtain ⟨sel, hsel, hne⟩ := h
    simp only [hasTextSelected, List.any_eq_true]
    exact ⟨sel, hsel, by simpa using (string_length_pos_iff sel.text).mpr hne⟩

/-- Witness for C8: a context with one empty-text selection and no recent
edits gets neither a SELECTED TEXT nor a RECENT EDITS section; adding a
selection with text yields the section listing exactly that selection. -/
theorem sections_omitted_when_empty_witness :
    fimEditParts (CursorContext.recentEdits
        ⟨1, 0, "", "", "r", [⟨0, 0, 1, 0, 1, 0, ""⟩], []⟩) = [] ∧
      fimSelectionParts (CursorContext.selections
        ⟨1, 0, "", "", "r", [⟨0, 0, 1, 0, 1, 0, ""⟩], []⟩) = [] ∧
      fimSelectionParts (CursorContext.selections
        ⟨1, 0, "", "", "r", [⟨0, 2, 1, 0, 1, 2, "ab"⟩], []⟩) =
        ["", "---", "SELECTED TEXT:", "Selection 1 (Line 1:0 → 1:2):", "ab"] := by
  refine ⟨(sections_omitted_when_empty
      ⟨1, 0, "", "", "r", [⟨0, 0, 1, 0, 1, 0, ""⟩], []⟩).1 rfl,
    (sections_omitted_when_empty
      ⟨1, 0, "", "", "r", [⟨0, 0, 1, 0, 1, 0, ""⟩], []⟩).2.1 (by decide),
    ?_⟩
  have h := (sections_omitted_when_empty
      ⟨1, 0, "", "", "r", [⟨0, 2, 1, 0, 1, 2, "ab"⟩], []⟩).2.2
      ⟨⟨0, 2, 1, 0, 1, 2, "ab"⟩, by decide, by decide⟩
  rw [h]
  decide

/-- C7 counterexample: the part_006 assembler variant does not list the recent
edits newest-first — on the buffer `[editOlder, editNewer]` (oldest-first by
array position) its Recent Edits section renders Edit 1 from `editOlder`, the
oldest entry, while the newest entry `editNewer` comes last. -/
theorem v2_edits_not_newest_first :
    (v2EditsShown [editOlder, editNewer]).head? = some editOlder ∧
      [editOlder, editNewer].getLast? = some editNewer ∧
      editOlder ≠ editNewer ∧
      v2EditParts [editOlder, editNewer] =
        ["", "Recent Edits:", "  Total edits tracked: 2",
         "  Edit 1: pos 0-0", "    Inserted: \"a\"",
         "  Edit 2: pos 1-1", "    Inserted: \"b\""] := by
  decide

/-- A non-no-op edit renders as exactly one line in the app.R RECENT EDITS
section (replacement, insertion or deletion). -/
theorem fimEditLines_length_one (i : Nat) (e : EditInfo)
    (h : e.remove ≠ "" ∨ e.insert ≠ "") : (fimEditLines i e).length = 1 := by
  unfold fimEditLines
  by_cases h1 : 0 < e.remove.length
  · by_cases h2 : 0 < e.insert.length
    · simp [h1, h2]
    · simp [h1, h2]
  · by_cases h2 : 0 < e.insert.length
    · simp [h1, h2]
    · exfalso
      rcases h with h | h
      · exact h1 ((string_length_pos_iff _).mpr h)
      · exact h2 ((string_length_pos_iff _).mpr h)

/-- Rendering one line per non-no-op edit, the FIM edit listing has as many
lines as edits shown (stated over `enumFrom` to make the induction go
through). -/
theorem flatMap_fimEditLines_length :
    ∀ (l : List EditInfo) (n : Nat), (∀ e ∈ l, e.remove ≠ "" ∨ e.insert ≠ "") →
      ((List.enumFrom n l).flatMap fun p => fimEditLines (p.1 + 1) p.2).length
        = l.length := by
  intro l
  induction l with
  | nil => intro n _; rfl
  | cons a l ih =>
    intro n h
    simp only [List.enumFrom_cons, List.flatMap_cons, List.length_append,
      List.length_cons]
    rw [fimEditLines_length_one _ _ (h a (List.mem_cons_self a l)),
      ih (n + 1) fun e he => h e (List.mem_cons_of_mem a he)]
    omega

/-- C7 amended: both assembler variants list exactly `min(K, length)` recent
edits, but in different orders — the app.R variant (K = 5) shows them
newest-first by array position (the `i`-th shown entry is the `(length-1-i)`-th
buffer entry), and for non-no-op edits renders exactly `min(5, length)` lines;
the part_006 variant (K = 3) shows the last `min(3, length)` entries in array
(oldest-first) order. -/
theorem recent_edits_listing (edits : List EditInfo) :
    (fimEditsShown edits).length = min 5 edits.length ∧
      (∀ i, i < min 5 edits.length →
        (fimEditsShown edits)[i]? = edits[edits.length - 1 - i]?) ∧
      ((∀ e ∈ edits, e.remove ≠ "" ∨ e.insert ≠ "") →
        ((fimEditsShown edits).enum.flatMap
            fun p => fimEditLines (p.1 + 1) p.2).length = min 5 edits.length) ∧
      (v2EditsShown edits).length = min 3 edits.length ∧
      (∀ i, i < min 3 edits.length →
        (v2EditsShown edits)[i]? = edits[edits.length - min 3 edits.length + i]?) := by
  have hlen5 : (fimEditsShown edits).length = min 5 edits.length := by
    simp [fimEditsShown]
  refine ⟨hlen5, ?_, ?_, ?_, ?_⟩
  · intro i hi
    rw [fimEditsShown, List.getElem?_take_of_lt (lt_of_lt_of_le hi (min_le_left _ _)),
      List.getElem?_reverse (lt_of_lt_of_le hi (min_le_right _ _))]
  · intro h
    rw [List.enum, flatMap_fimEditLines_length _ 0, hlen5]
    intro e he
    exact h e (List.mem_reverse.mp (List.mem_of_mem_take he))
  · simp [v2EditsShown]
    omega
  · intro i hi
    rw [v2EditsShown, List.getElem?_drop]
    have harith : edits.length - 3 + i = edits.length - min 3 edits.length + i := by
      omega
    rw [harith]

/-- Witness for C7's amended theorem on the concrete buffer
`[editOlder, editNewer]`. -/
theorem recent_edits_listing_witness :
    ((fimEditsShown [editOlder, editNewer]).enum.flatMap
        fun p => fimEditLines (p.1 + 1) p.2).length
      = min 5 ([editOlder, editNewer] : List EditInfo).length ∧
      (fimEditsShown [editOlder, editNewer])[0]? =
        ([editOlder, editNewer] : List EditInfo)[
          ([editOlder, editNewer] : List EditInfo).length - 1 - 0]? :=
  ⟨(recent_edits_listing [editOlder, editNewer]).2.2.1 (by decide),
    (recent_edits_listing [editOlder, editNewer]).2.1 0 (by decide)⟩

/-- C4: the normalizer emits one `EditInfo` per changed sub-range, all carrying
the one capture timestamp, each with `remove` sliced from the pre-change
document at `[from, to)` and `insert` the inserted text; concretely, replacing
offsets `[2, 5)` of `"abxyzfg"` (which hold `"xyz"`) with `"Q"` at time `t`
yields the record with from 2, to 5, remove `"xyz"`, insert `"Q"`, timestamp
`t`, whereas slicing the post-change document `"abQfg"` there would not give
`"xyz"`. -/
theorem normalizeChanges_spec (startDoc : List Char) (changes : List ChangeRange)
    (t : Int) :
    (normalizeChanges startDoc changes t).length = changes.length ∧
      (∀ e ∈ normalizeChanges startDoc changes t, e.timestamp = t) ∧
      (∀ i, i < changes.length →
        (normalizeChanges startDoc changes t)[i]? =
          (changes[i]?).map fun ch =>
            ⟨t, ch.fromA, ch.toA, ch.inserted, sliceString startDoc ch.fromA ch.toA⟩) ∧
      normalizeChanges "abxyzfg".toList [⟨2, 5, "Q"⟩] t = [⟨t, 2, 5, "Q", "xyz"⟩] ∧
      sliceString "abQfg".toList 2 5 ≠ "xyz" := by
  refine ⟨by simp [normalizeChanges], ?_, ?_, ?_, by decide⟩
  · intro e he
    obtain ⟨ch, _, rfl⟩ := List.mem_map.mp he
    rfl
  · intro i _
    rw [normalizeChanges, List.getElem?_map]
  · show List.map _ _ = _
    rw [List.map_cons, List.map_nil]
    have : sliceString "abxyzfg".toList 2 5 = "xyz" := by decide
    rw [this]

/-- Witness for C4 at the concrete replacement of `[2, 5)` in `"abxyzfg"`. -/
theorem normalizeChanges_spec_witness :
    (normalizeChanges "abxyzfg".toList [⟨2, 5, "Q"⟩] 777)[0]? =
        (([⟨2, 5, "Q"⟩] : List ChangeRange)[0]?).map (fun ch =>
          ⟨777, ch.fromA, ch.toA, ch.inserted,
            sliceString "abxyzfg".toList ch.fromA ch.toA⟩) ∧
      normalizeChanges "abxyzfg".toList [⟨2, 5, "Q"⟩] 777 =
        [⟨777, 2, 5, "Q", "xyz"⟩] :=
  ⟨(normalizeChanges_spec "abxyzfg".toList [⟨2, 5, "Q"⟩] 777).2.2.1 0 (by decide),
    (normalizeChanges_spec "abxyzfg".toList [⟨2, 5, "Q"⟩] 777).2.2.2.1⟩

/-- C9: assuming the host's change ranges are well-formed, every `EditInfo` the
buffer holds after a record operation satisfies `from ≤ to` with at least one
of `remove`/`insert` non-empty — in particular no-op document changes are never
recorded. -/
theorem buffer_edits_wellFormed (startDoc : List Char) (changes : List ChangeRange)
    (t : Int) (buf : List EditInfo)
    (hbuf : ∀ e ∈ buf, editWellFormed e)
    (hch : ∀ ch ∈ changes, changeWellFormed startDoc ch) :
    ∀ e ∈ recordEdits buf (normalizeChanges startDoc changes t) t,
      editWellFormed e := by
  intro e he
  have hmem : e ∈ buf ++ normalizeChanges startDoc changes t := by
    have h1 := List.mem_of_mem_filter he
    revert h1
    split
    · exact fun h => List.mem_of_mem_drop h
    · exact fun h => h
  rcases List.mem_append.mp hmem with h | h
  · exact hbuf e h
  · obtain ⟨ch, hchmem, rfl⟩ := List.mem_map.mp h
    obtain ⟨hord, hinside, hnoop⟩ := hch ch hchmem
    refine ⟨hord, ?_⟩
    rcases hnoop with hlt | hins
    · left
      rw [← string_length_pos_iff, sliceString_length]
      simp only [List.length_drop, List.length_take]
      omega
    · right
      exact hins

/-- Witness for C9: the record produced by the concrete replacement of
`[2, 5)` with `"Q"` is well-formed in the buffer it lands in. -/
theorem buffer_edits_wellFormed_witness :
    editWellFormed ⟨111, 2, 5, "Q", "xyz"⟩ :=
  buffer_edits_wellFormed "abxyzfg".toList [⟨2, 5, "Q"⟩] 111 []
    (fun e he => absurd he (List.not_mem_nil e))
    (fun ch hch => by
      rw [List.mem_singleton.mp hch]
      exact ⟨by decide, by decide, Or.inl (by decide)⟩)
    ⟨111, 2, 5, "Q", "xyz"⟩ (by decide)

/-- Splitting an event list splits the run. -/
theorem runEvents_append (cb : Bool) (lang : String) (st : EditorState)
    (evs₁ evs₂ : List LoopEvent) :
    runEvents cb lang st (evs₁ ++ evs₂) =
      ((runEvents cb lang (runEvents cb lang st evs₁).1 evs₂).1,
        (runEvents cb lang st evs₁).2 ++
          (runEvents cb lang (runEvents cb lang st evs₁).1 evs₂).2) := by
  induction evs₁ generalizing st with
  | nil => simp [runEvents]
  | cons e evs ih =>
    simp only [List.cons_append, runEvents, List.append_eq]
    rw [ih]
    simp [List.append_assoc]

/-- A qualifying notification with the callback wired replaces the pending
timer with a fresh one capturing the notification's snapshot. -/
theorem handleUpdate_qualifying (lang : String) (st : EditorState)
    (u : UpdateNotif) (now : Int) (hq : qualifies u) :
    handleUpdate true lang st u now =
      { recentEdits :=
          if u.docChanged then
            recordEdits st.recentEdits (normalizeChanges u.startDoc u.changes now) now
          else st.recentEdits
        nextTimerId := st.nextTimerId + 1
        pending := some (st.nextTimerId, mkPending lang u) } := by
  unfold handleUpdate
  cases hd : u.docChanged with
  | true => simp [hd]
  | false =>
    have hs : u.selectionSet = true := by
      revert hq
      simp [qualifies, hd]
    simp [hd, hs]

/-- After a wired burst of qualifying notifications ending in `ulast`, nothing
has been delivered, the id supply advanced once per notification, and the one
pending timer carries the last notification's snapshot. -/
theorem runEvents_notifs (lang : String) :
    ∀ (us : List (UpdateNotif × Int)) (ulast : UpdateNotif × Int)
      (st : EditorState),
      (∀ p ∈ us ++ [ulast], qualifies p.1) →
      (runEvents true lang st (notifEvents (us ++ [ulast]))).2 = [] ∧
        (runEvents true lang st (notifEvents (us ++ [ulast]))).1.nextTimerId =
          st.nextTimerId + us.length + 1 ∧
        (runEvents true lang st (notifEvents (us ++ [ulast]))).1.pending =
          some (st.nextTimerId + us.length, mkPending lang ulast.1) := by
  intro us
  induction us with
  | nil =>
    intro ulast st h
    have hq := h ulast (List.mem_singleton_self ulast)
    simp only [List.nil_append, notifEvents, List.map_cons, List.map_nil,
      runEvents, stepEvent]
    rw [handleUpdate_qualifying lang st ulast.1 ulast.2 hq]
    simp [runEvents]
  | cons p us ih =>
    intro ulast st h
    have hq := h p (by simp)
    have ihr := ih ulast (handleUpdate true lang st p.1 p.2)
      fun q hqmem => h q (List.mem_cons_of_mem p hqmem)
    have hnv : (handleUpdate true lang st p.1 p.2).nextTimerId = st.nextTimerId + 1 := by
      rw [handleUpdate_qualifying lang st p.1 p.2 hq]
    have hshape :
        runEvents true lang st (notifEvents ((p :: us) ++ [ulast])) =
          ((runEvents true lang (handleUpdate true lang st p.1 p.2)
              (notifEvents (us ++ [ulast]))).1,
            [] ++ (runEvents true lang (handleUpdate true lang st p.1 p.2)
              (notifEvents (us ++ [ulast]))).2) := by
      simp only [List.cons_append, notifEvents, List.map_cons, runEvents, stepEvent,
        List.append_eq]
    rw [hshape]
    refine ⟨by simpa using ihr.1, ?_, ?_⟩
    · rw [ihr.2.1, hnv, List.length_cons]
      omega
    · rw [ihr.2.2, hnv, List.length_cons]
      rw [Nat.add_assoc, Nat.add_comm 1 us.length]

/-- Fires of ids other than the pending one deliver nothing and leave the
state unchanged. -/
theorem runEvents_stale_fires (cb : Bool) (lang : String) :
    ∀ (ids : List Nat) (st : EditorState) (lid : Nat) (p : PendingEmission),
      st.pending = some (lid, p) → (∀ id ∈ ids, id ≠ lid) →
      runEvents cb lang st (ids.map LoopEvent.fire) = (st, []) := by
  intro ids
  induction ids with
  | nil => intro st lid p _ _; rfl
  | cons i ids ih =>
    intro st lid p hp hne
    simp only [List.map_cons, runEvents, stepEvent]
    have hfire : fireTimer st i = (st, none) := by
      have hni : ¬ (lid = i) := fun hcon => hne i (List.mem_cons_self i ids) hcon.symm
      unfold fireTimer
      rw [hp]
      exact if_neg hni
    rw [hfire]
    simp only [Option.toList_none, List.nil_append]
    rw [ih st lid p hp fun id hid => hne id (List.mem_cons_of_mem i hid)]

/-- C3: with the callback wired, a burst of qualifying notifications (none of
whose debounce timers got to fire in between — i.e. each arrived within the
quiet interval of the previous one), followed by any number of fires of the
cancelled timers and the fire of the last-scheduled timer, delivers exactly one
context: the one built from the state at the last notification (its
line/column and window snapshot and the buffer as of that notification).
The cancelled timers deliver nothing, and the single `pending` slot means at
most one emission from this component is ever scheduled at a time. -/
theorem debounce_coalescing (lang : String) (st : EditorState)
    (us : List (UpdateNotif × Int)) (ulast : UpdateNotif × Int)
    (hq : ∀ p ∈ us ++ [ulast], qualifies p.1)
    (stale : List Nat) (hstale : ∀ id ∈ stale, id ≠ st.nextTimerId + us.length) :
    (runEvents true lang st
        (notifEvents (us ++ [ulast]) ++ stale.map LoopEvent.fire ++
          [LoopEvent.fire (st.nextTimerId + us.length)])).2 =
      [emittedFrom lang ulast.1
        (runEvents true lang st (notifEvents (us ++ [ulast]))).1.recentEdits] := by
  obtain ⟨hdel, hnext, hpend⟩ := runEvents_notifs lang us ulast st hq
  set stN := (runEvents true lang st (notifEvents (us ++ [ulast]))).1 with hstN
  rw [runEvents_append, runEvents_append, hdel]
  rw [← hstN, runEvents_stale_fires true lang stale stN _ _ hpend hstale]
  simp only [List.nil_append, List.append_nil]
  have hfire : fireTimer stN (st.nextTimerId + us.length) =
      ({ stN with pending := none },
        some (emittedFrom lang ulast.1 stN.recentEdits)) := by
    unfold fireTimer
    rw [hpend]
    exact if_pos rfl
  simp only [runEvents, stepEvent, hfire, Option.toList_some]
  simp [runEvents]

/-- Witness for C3: a two-notification burst from the idle state, one stale
fire of the cancelled timer 0, then the fire of timer 1, delivers exactly the
context of the second notification. -/
theorem debounce_coalescing_witness :
    (runEvents true "r" ⟨[], 0, none⟩
        (notifEvents ([(notifA, 1000)] ++ [(notifB, 1001)]) ++
          [LoopEvent.fire 0] ++ [LoopEvent.fire 1])).2 =
      [emittedFrom "r" notifB
        (runEvents true "r" ⟨[], 0, none⟩
          (notifEvents ([(notifA, 1000)] ++ [(notifB, 1001)]))).1.recentEdits] := by
  have h := debounce_coalescing "r" ⟨[], 0, none⟩ [(notifA, 1000)] (notifB, 1001)
    (by
      intro p hp
      rcases List.mem_cons.mp hp with h | h
      · rw [h]
        decide
      · rw [List.mem_singleton.mp h]
        decide)
    [0] (by decide)
  simpa using h

/-- C10: while no `onCursorChange` callback is registered, every update
notification — document changes included — leaves the component state exactly
as it was: nothing is recorded into the edit buffer and no timer is scheduled,
so a later wired run starting from that state behaves as if the unwired
notifications had never happened. -/
theorem unwired_updates_noop (lang : String) (st : EditorState)
    (us : List (UpdateNotif × Int)) (evs : List LoopEvent) :
    runEvents false lang st (notifEvents us) = (st, []) ∧
      runEvents true lang (runEvents false lang st (notifEvents us)).1 evs =
        runEvents true lang st evs := by
  have hrun : runEvents false lang st (notifEvents us) = (st, []) := by
    induction us generalizing st with
    | nil => rfl
    | cons p us ih =>
      simp only [notifEvents, List.map_cons, runEvents, stepEvent]
      have hnoop : handleUpdate false lang st p.1 p.2 = st := rfl
      rw [hnoop]
      simpa [notifEvents] using ih st
  exact ⟨hrun, by rw [hrun]⟩

end TextEdit
